import Mathlib

/-!
Verification of the Augeas-backed ParserNode layer of certbot-apache
(`certbot_apache/augeasparser.py`).

The program talks to an external, case-sensitive, positionally indexed path
tree (the Augeas engine).  We shallow-embed the layer as follows:

* Python strings are modelled as `List Char` (`Str`); the string helpers the
  source uses (`str.split`, `str.partition`, `os.path.basename`, `in`,
  `str.lower`) are given executable definitions below.
* The engine is modelled by `AugeasEngine`, a record of the read primitives
  the source calls (`aug.match` over the patterns it actually builds, plus the
  session helpers).  `aug.match` results are, per the Augeas contract, in
  document order.
* Engine writes (`aug.set`, `aug.remove`, `aug.insert`) are recorded as an
  explicit trace of `AugOp` values, so that "method X performs no engine
  mutation" is the checkable statement "the trace of X is `[]`".
* The parameter list of a single directive node is modelled as the ordered
  list of values of its `arg` children; `aug.remove(".../arg[1]")` drops the
  head (Augeas renumbers the remaining siblings downward, as the source's own
  comment documents), and `aug.set(".../arg[k]")` with `k` one past the end
  appends.
* Python's `set` has no specified iteration order (string hashing is
  randomised), so the set built by `_aug_find_blocks` is modelled by its
  insertion-ordered list of elements together with an arbitrary enumeration
  function `setIter`; any permutation is a legal iteration order.

Code of the repository that the claims depend on but that is not under
`src/` (`certbot_apache/parser.py`, `certbot_apache/assertions.py`,
`certbot_apache/apache_util.py`, `certbot_apache/parsernode_util.py`) is
modelled from the spec; each such definition carries a doc comment starting
with `Modelled from the spec:`.
-/

/-- Python strings, modelled as lists of characters. -/
abbrev Str := List Char

/-- Python `str.lower` (the source only ever lowercases ASCII labels). -/
def lowerStr (s : Str) : Str := s.map Char.toLower

/-- Python `s.split(sep)` for a one-character separator: the list of chunks
between occurrences of `sep`; always non-empty. -/
def splitOnChar (sep : Char) : Str → List Str
  | [] => [[]]
  | c :: cs =>
    let r := splitOnChar sep cs
    if c == sep then [] :: r
    else (c :: r.headD []) :: r.tail

/-- Does `needle` occur at the start of `hay`? (Python `s.startswith`.) -/
def startsWithSub : Str → Str → Bool
  | _, [] => true
  | [], _ :: _ => false
  | c :: cs, d :: ds => c == d && startsWithSub cs ds

/-- Python `needle in hay` — contiguous-substring test. -/
def containsSub (hay needle : Str) : Bool :=
  match hay with
  | [] => needle.isEmpty
  | _ :: t => startsWithSub hay needle || containsSub t needle

/-- Python `s.partition(needle)[0]`: the part of `s` before the first
occurrence of `needle` (all of `s` when `needle` does not occur). -/
def partitionBefore (needle : Str) : Str → Str
  | [] => []
  | c :: rest =>
    if startsWithSub (c :: rest) needle then []
    else c :: partitionBefore needle rest

/-- The source's trailing-slash strip: `if path[-1] == "/": path = path[:-1]`. -/
def dropTrailingSlash (p : Str) : Str :=
  match p.getLast? with
  | some c => if c == '/' then p.dropLast else p
  | none => p

/-- Python `os.path.basename`: everything after the last `/`. -/
def basenameOf (p : Str) : Str := (splitOnChar '/' p).getLastD []

/-- `AugeasBlockNode._aug_get_name`: drop a trailing slash, take the final
path segment (`path.split("/")[-1]`), and strip the `[n]` index
(`name.split("[")[0]`). -/
def aug_get_name (path : Str) : Str :=
  let p := dropTrailingSlash path
  ((splitOnChar '[' ((splitOnChar '/' p).getLastD [])).headD [])

/-- Decimal rendering of a natural number, as Python string formatting does. -/
def natToStr (n : Nat) : Str := (Nat.repr n).data

/-- Modelled from the spec: `certbot_apache/assertions.py` (not in `src/`)
provides a placeholder sentinel value `PASS` used for deferred node
identity; its concrete value is irrelevant to the claims. -/
def assertions_PASS : Str := "CERTBOT_PASS_ASSERT".data

/-- Modelled from the spec: full-label matching of the engine search pattern
`label()=~regexp(case_i(name))`.  `parser.case_i` (in
`certbot_apache/parser.py`, not in `src/`) "builds a regex alternation
matching every letter of `name` in either case", and an Augeas `=~ regexp`
comparison matches the whole label, so a label matches exactly when it is a
case variant of `name`, i.e. when the two case-fold equal. -/
def case_i_match (name label : Str) : Bool := lowerStr label == lowerStr name

/-- The external collaborators of the layer: the read primitives of the
Augeas engine for the patterns the source builds, and the session helpers
specified only through their interfaces.

* `matchChildren p` — `aug.match(p + "/*")`, the immediate children of `p`
  in document order;
* `matchArgs p` — `aug.match(p + "/arg")`, the `arg` children of `p` in
  document order;
* `descendants r` — `aug.match("/files" + r + "//*")`, every node under the
  root search path `r` in document order (label-regex matches filter this);
* `getArg` — Modelled from the spec: the session value resolver
  `parser.get_arg` (not in `src/`), which resolves a path to its value;
* `getFilePath` — Modelled from the spec: `apache_util.get_file_path`
  (not in `src/`), the session file-path resolver;
* `keepPath` — Modelled from the spec: the session exclusion predicate
  backing `parser.exclude_dirs` (not in `src/`), which filters paths;
* `parserId` — identity of the shared parser session stored in each node's
  metadata map. -/
structure AugeasEngine where
  matchChildren : Str → List Str
  matchArgs : Str → List Str
  descendants : Str → List Str
  getArg : Str → Str
  getFilePath : Str → Str
  keepPath : Str → Bool
  parserId : Nat

/-- Engine write/read calls, recorded as an explicit trace. -/
inductive AugOp where
  | matchOp (pattern : Str)
  | getOp (path : Str)
  | setOp (path : Str) (value : Str)
  | removeOp (path : Str)
  | insertOp (anchor : Str) (label : Str) (before : Bool)
  deriving DecidableEq

/-- The `ancestor` back-reference of a node: either the `assertions.PASS`
placeholder or a reference to the parent node (identified by its engine
path, since the tree is never materialised). -/
inductive AncestorVal where
  | passAnc
  | nodeAnc (path : Str)
  deriving DecidableEq

/-- The metadata map `{"augeasparser": ..., "augeaspath": ...}` carried by
every node: the shared parser session and the node's own engine path. -/
structure NodeMetadata where
  parserId : Nat
  augeaspath : Str
  deriving DecidableEq

/-- `AugeasCommentNode` surface state: comment text plus the base-node
identity fields. -/
structure CommentData where
  comment : Str
  filepath : Str
  dirty : Bool
  ancestor : AncestorVal
  metadata : NodeMetadata
  deriving DecidableEq

/-- `AugeasDirectiveNode` surface state.  `parameters` is not stored: the
source derives it from the engine on every read. -/
structure DirectiveData where
  name : Str
  enabled : Bool
  filepath : Str
  dirty : Bool
  ancestor : AncestorVal
  metadata : NodeMetadata
  deriving DecidableEq

/-- An entry of a block's local `children` buffer.  Only
`add_child_directive` and `add_child_comment` ever append to the buffer, so
its entries are directive or comment nodes. -/
inductive ChildNode where
  | childDir (d : DirectiveData)
  | childComment (c : CommentData)
  deriving DecidableEq

/-- `AugeasBlockNode` surface state: the inherited directive fields plus the
local `children` buffer. -/
structure BlockData where
  dir : DirectiveData
  children : List ChildNode
  deriving DecidableEq

/-- A Python value appearing as the right operand of `==`: one of the three
node kinds, or any value of a different type. -/
inductive PyVal where
  | commentV (c : CommentData)
  | directiveV (d : DirectiveData)
  | blockV (b : BlockData)
  | otherV (k : Nat)
  deriving DecidableEq

/-- `isinstance(other, AugeasCommentNode)`. -/
def isinstance_comment : PyVal → Bool
  | .commentV _ => true
  | _ => false

/-- `isinstance(other, AugeasDirectiveNode)`: blocks subclass directives. -/
def isinstance_directive : PyVal → Bool
  | .directiveV _ => true
  | .blockV _ => true
  | _ => false

/-- `isinstance(other, AugeasBlockNode)`. -/
def isinstance_block : PyVal → Bool
  | .blockV _ => true
  | _ => false

/-- The derived `parameters` property: `aug.match(path + "/arg")` in
document order, each path resolved to its value by the session. -/
def node_parameters (E : AugeasEngine) (path : Str) : List Str :=
  (E.matchArgs path).map E.getArg

/-- `AugeasCommentNode.__eq__`. -/
def comment_eq (E : AugeasEngine) (self : CommentData) (other : PyVal) : Bool :=
  match other with
  | .commentV o =>
    self.comment == o.comment &&
    self.filepath == o.filepath &&
    self.dirty == o.dirty &&
    self.ancestor == o.ancestor &&
    self.metadata == o.metadata
  | _ => false

/-- `AugeasDirectiveNode.__eq__`: `isinstance(other, self.__class__)`
accepts directives and blocks (blocks subclass directives); the comparison
reads both operands' derived `parameters` from the engine. -/
def directive_eq (E : AugeasEngine) (self : DirectiveData) (other : PyVal) : Bool :=
  match other with
  | .directiveV o =>
    self.name == o.name &&
    self.filepath == o.filepath &&
    node_parameters E self.metadata.augeaspath == node_parameters E o.metadata.augeaspath &&
    self.enabled == o.enabled &&
    self.dirty == o.dirty &&
    self.ancestor == o.ancestor &&
    self.metadata == o.metadata
  | .blockV o =>
    self.name == o.dir.name &&
    self.filepath == o.dir.filepath &&
    node_parameters E self.metadata.augeaspath == node_parameters E o.dir.metadata.augeaspath &&
    self.enabled == o.dir.enabled &&
    self.dirty == o.dir.dirty &&
    self.ancestor == o.dir.ancestor &&
    self.metadata == o.dir.metadata
  | _ => false

/-- Elementwise equality of `children` buffer entries, dispatching on the
left operand's `__eq__` as Python tuple comparison does. -/
def childEq (E : AugeasEngine) : ChildNode → ChildNode → Bool
  | .childDir d, .childDir d2 => directive_eq E d (.directiveV d2)
  | .childDir d, .childComment c => directive_eq E d (.commentV c)
  | .childComment c, .childDir d => comment_eq E c (.directiveV d)
  | .childComment c, .childComment c2 => comment_eq E c (.commentV c2)

/-- Python tuple equality for two `children` buffers. -/
def childrenEq (E : AugeasEngine) (l1 l2 : List ChildNode) : Bool :=
  l1.length == l2.length &&
  (List.zip l1 l2).all fun pc => childEq E pc.1 pc.2

/-- `AugeasBlockNode.__eq__`: only another block is `isinstance` of the
block class. -/
def block_eq (E : AugeasEngine) (self : BlockData) (other : PyVal) : Bool :=
  match other with
  | .blockV o =>
    self.dir.name == o.dir.name &&
    self.dir.filepath == o.dir.filepath &&
    node_parameters E self.dir.metadata.augeaspath ==
      node_parameters E o.dir.metadata.augeaspath &&
    childrenEq E self.children o.children &&
    self.dir.enabled == o.dir.enabled &&
    self.dir.dirty == o.dir.dirty &&
    self.dir.ancestor == o.dir.ancestor &&
    self.dir.metadata == o.dir.metadata
  | _ => false

/-- The Python `==` operator between two values, with CPython's dispatch
rule: normally the left operand's `__eq__` is tried first, but when the
right operand's type is a *proper subclass* of the left's type and
overrides `__eq__`, the right operand's reflected method is tried first.
Among the node kinds the only proper-subclass pair is block < directive
(`AugeasBlockNode` subclasses `AugeasDirectiveNode`, and it overrides
`__eq__`), so a `directive == block` comparison dispatches to the block's
`__eq__`.  None of the three `__eq__` methods ever returns
`NotImplemented` — they return `False` on an `isinstance` mismatch — so
the method dispatched first always decides and no fallback occurs.  A
left operand of unknown class (`otherV`) has an unknown `__eq__`, which
the model leaves undetermined (`none`). -/
def py_eq (E : AugeasEngine) : PyVal → PyVal → Option Bool
  | .directiveV d, .blockV b => some (block_eq E b (.directiveV d))
  | .commentV c, r => some (comment_eq E c r)
  | .directiveV d, r => some (directive_eq E d r)
  | .blockV b, r => some (block_eq E b r)
  | .otherV _, _ => none

/-!
### `set_parameters` / `parameters` (claim C1)

The state of a single directive node's parameters is the ordered list of the
values of its `arg` children.  `aug.remove(path + "/arg[1]")` removes the
first `arg` child, and Augeas renumbers the remaining ones downward (the
source's own comment: "When the first parameter is removed, the indices get
updated"), so a removal is `List.tail`.  `aug.set(path + "/arg[k]", v)`
overwrites the `k`-th `arg` child when it exists and creates it when
`k` is one past the end (the only creating case this code reaches).
-/

/-- `aug.remove(path + "/arg[1]")` acting on the ordered `arg` values. -/
def aug_remove_first_arg (args : List Str) : List Str := args.tail

/-- `aug.set(path + "/arg[k]", v)` acting on the ordered `arg` values. -/
def aug_set_arg (args : List Str) (k : Nat) (v : Str) : List Str :=
  if k = args.length + 1 then args ++ [v] else args.set (k - 1) v

/-- The clearing loop of `set_parameters`: `for _ in orig_params:` remove
`arg[1]` once per originally present parameter. -/
def set_parameters_clear (args : List Str) : List Str :=
  args.foldl (fun a _ => aug_remove_first_arg a) args

/-- The writing loop of `set_parameters`: `for pi, param in
enumerate(parameters): aug.set(path + "/arg[pi+1]", param)`; `k` is the next
1-based index to write. -/
def set_parameters_write (args : List Str) (k : Nat) : List Str → List Str
  | [] => args
  | p :: ps => set_parameters_write (aug_set_arg args k p) (k + 1) ps

/-- `AugeasDirectiveNode.set_parameters`: read the current parameters, drain
them by repeatedly removing `arg[1]`, then write the new ones at indices
`1..n`. -/
def set_parameters (args : List Str) (parameters : List Str) : List Str :=
  set_parameters_write (set_parameters_clear args) 1 parameters

/-- The `parameters` property: `aug.match(path + "/arg")` in document order,
each resolved to its value — i.e. exactly the current ordered `arg` values
(the session resolver is modelled from the spec as the plain value fetch). -/
def parameters_read (args : List Str) : List Str := args

/-!
### `find_directives` (claim C4)
-/

/-- Removing the `/arg` part from an Augeas path:
`directive.partition("/arg")[0]`. -/
def stripArg (p : Str) : Str := partitionBefore "/arg".data p

/-- `AugeasBlockNode._create_directivenode`. -/
def create_directivenode (E : AugeasEngine) (p : Str) : DirectiveData :=
  { name := E.getArg p
    enabled := true
    filepath := E.getFilePath p
    dirty := false
    ancestor := .passAnc
    metadata := { parserId := E.parserId, augeaspath := p } }

/-- The loop of `find_directives`: strip the `/arg` suffix of each finder
hit and skip hits whose stripped path is in `already_parsed`. -/
def find_directives_loop (E : AugeasEngine) (already : List Str)
    (acc : List DirectiveData) : List Str → List DirectiveData
  | [] => acc
  | d :: ds =>
    let d' := stripArg d
    if already.contains d' then find_directives_loop E already acc ds
    else find_directives_loop E (d' :: already) (acc ++ [create_directivenode E d']) ds

/-- `AugeasBlockNode.find_directives`, applied to the hit list produced by
the session's directive finder. -/
def find_directives (E : AugeasEngine) (hits : List Str) : List DirectiveData :=
  find_directives_loop E [] [] hits

/-- Modelled from the spec: `parser.find_dir` (in
`certbot_apache/parser.py`, not in `src/`) "yields one hit per parameter of
a matching directive", i.e. the paths `p/arg[1] .. p/arg[k]` for a matching
directive at `p` with `k` parameters. -/
def find_dir_hits (p : Str) (k : Nat) : List Str :=
  (List.range k).map fun i => p ++ "/arg[".data ++ natToStr (i + 1) ++ "]".data

/-!
### `_aug_find_blocks` / `find_blocks` (claims C2, C3)
-/

/-- `blk_paths.update(new)`: add elements to a set.  The set's contents are
modelled by the insertion-ordered duplicate-free list of its elements. -/
def insertAll (acc : List Str) : List Str → List Str
  | [] => acc
  | p :: ps => insertAll (if acc.contains p then acc else acc ++ [p]) ps

/-- `AugeasBlockNode._aug_find_blocks`: for every root search path, match
the label regex `case_i(name)` over all descendants, keep the paths whose
basename contains `name` case-insensitively, and accumulate everything into
one set. -/
def aug_find_blocks (E : AugeasEngine) (parser_paths : List Str) (name : Str) :
    List Str :=
  parser_paths.foldl
    (fun acc r =>
      insertAll acc
        (((E.descendants r).filter fun p => case_i_match name (aug_get_name p)).filter
          fun p => containsSub (lowerStr (basenameOf p)) (lowerStr name)))
    []

/-- `AugeasBlockNode._create_blocknode`. -/
def create_blocknode (E : AugeasEngine) (p : Str) : BlockData :=
  { dir :=
      { name := aug_get_name p
        enabled := true
        filepath := E.getFilePath p
        dirty := false
        ancestor := .passAnc
        metadata := { parserId := E.parserId, augeaspath := p } }
    children := [] }

/-- `AugeasBlockNode.find_blocks`.  `setIter` is the iteration order of the
Python set returned by `_aug_find_blocks` — unspecified by the language, so
it is a parameter of the model; a legal instance is any permutation of the
set's elements.  When `exclude` is set, the session exclusion predicate
filters the paths. -/
def find_blocks (E : AugeasEngine) (parser_paths : List Str) (name : Str)
    (exclude : Bool) (setIter : List Str → List Str) : List BlockData :=
  let bpaths := setIter (aug_find_blocks E parser_paths name)
  let kept := if exclude then bpaths.filter E.keepPath else bpaths
  kept.map (create_blocknode E)

/-- The path of a block node, as stored in its metadata map. -/
def blockPath (b : BlockData) : Str := b.dir.metadata.augeaspath

/-- The path of a directive node, as stored in its metadata map. -/
def dirPath (d : DirectiveData) : Str := d.metadata.augeaspath

/-- Specification-side characterisation of `findBlocks` (claim C2's words):
the set of engine nodes, across the root search paths, whose trailing path
segment with its index stripped case-folds to `name` — as the
insertion-ordered duplicate-free list of those paths. -/
def find_blocks_label_matches (E : AugeasEngine) (parser_paths : List Str)
    (name : Str) : List Str :=
  insertAll []
    (parser_paths.flatMap fun r =>
      (E.descendants r).filter fun p => lowerStr (aug_get_name p) == lowerStr name)

/-!
### `_aug_resolve_child_position` (claims C5, C6)
-/

/-- The counter loop of `_aug_resolve_child_position`: walk the children
with index `i`, breaking as soon as `i >= position` (when a position is
given), and count the children whose index-stripped label equals `name`
exactly. -/
def countMatchingBefore (name : Str) (position : Option Nat) :
    Nat → List Str → Nat
  | _, [] => 0
  | i, child :: rest =>
    match position with
    | some p =>
      if p ≤ i then 0
      else (if aug_get_name child == name then 1 else 0) +
        countMatchingBefore name position (i + 1) rest
    | none =>
      (if aug_get_name child == name then 1 else 0) +
        countMatchingBefore name position (i + 1) rest

/-- `AugeasBlockNode._aug_resolve_child_position`: returns
`(insert_path, resulting_path, before)`. -/
def aug_resolve_child_position (E : AugeasEngine) (augeaspath : Str)
    (name : Str) (position : Option Nat) : Str × Str × Bool :=
  let all_children := E.matchChildren augeaspath
  let counter := 1 + countMatchingBefore name position 0 all_children
  let resulting_path :=
    augeaspath ++ "/".data ++ name ++ "[".data ++ natToStr counter ++ "]".data
  let append :=
    all_children.isEmpty || position.isNone ||
      all_children.length ≤ position.getD 0
  if append then
    (augeaspath ++ "/*[last()]".data, resulting_path, false)
  else if position = some 0 then
    (all_children.headD [], resulting_path, true)
  else
    (augeaspath ++ "/*[".data ++ natToStr (position.getD 0) ++ "]".data,
      resulting_path, false)

/-!
### `add_child_block` / `add_child_directive` / `add_child_comment`
(claims C7, C10)
-/

/-- The local state of the calling block node: its engine path and its local
`children` buffer. -/
structure BlockSelfState where
  augeaspath : Str
  children : List ChildNode

/-- The engine-call trace of `set_parameters`: one `aug.match` of the `arg`
children, one `aug.remove` of `arg[1]` per original parameter, one `aug.set`
per new parameter. -/
def set_parameters_ops (E : AugeasEngine) (path : Str) (ps : List Str) :
    List AugOp :=
  AugOp.matchOp (path ++ "/arg".data) ::
    ((E.matchArgs path).map fun _ => AugOp.removeOp (path ++ "/arg[1]".data)) ++
    ps.enum.map fun ip =>
      AugOp.setOp (path ++ "/arg[".data ++ natToStr (ip.1 + 1) ++ "]".data) ip.2

/-- The engine-call trace of `AugeasDirectiveNode.__init__`: it calls
`set_parameters` only when a non-empty parameter list is supplied
(`if parameters:` — `None` and `[]` are both falsy). -/
def directive_node_init_ops (E : AugeasEngine) (path : Str)
    (parameters : Option (List Str)) : List AugOp :=
  match parameters with
  | some (p :: ps) => set_parameters_ops E path (p :: ps)
  | _ => []

/-- `AugeasBlockNode.add_child_directive`: builds a directive node whose
name, filepath and engine path are all the `assertions.PASS` placeholder
(its constructor receives no parameters, hence performs no engine call),
appends it to the local `children` buffer and returns it.  The result is
`(new node, updated self, engine-call trace)`. -/
def add_child_directive (E : AugeasEngine) (self : BlockSelfState)
    (_name : Str) (_parameters : Option (List Str)) (_position : Option Nat) :
    DirectiveData × BlockSelfState × List AugOp :=
  let new_dir : DirectiveData :=
    { name := assertions_PASS
      enabled := true
      filepath := assertions_PASS
      dirty := false
      ancestor := .nodeAnc self.augeaspath
      metadata := { parserId := E.parserId, augeaspath := assertions_PASS } }
  (new_dir,
    { self with children := self.children ++ [ChildNode.childDir new_dir] },
    directive_node_init_ops E assertions_PASS none)

/-- `AugeasBlockNode.add_child_comment`: same placeholder pattern as
`add_child_directive`, appending a comment node to the buffer. -/
def add_child_comment (E : AugeasEngine) (self : BlockSelfState)
    (_comment : Str) (_position : Option Nat) :
    CommentData × BlockSelfState × List AugOp :=
  let new_comment : CommentData :=
    { comment := assertions_PASS
      filepath := assertions_PASS
      dirty := false
      ancestor := .nodeAnc self.augeaspath
      metadata := { parserId := E.parserId, augeaspath := assertions_PASS } }
  (new_comment,
    { self with children := self.children ++ [ChildNode.childComment new_comment] },
    [])

/-- `AugeasBlockNode.add_child_block`: resolve the insertion anchor (one
`aug.match` of the immediate children), `aug.insert` the new labelled node
there, and construct a block node bound to the resulting path (whose
constructor applies `set_parameters` when parameters are given).  The local
`children` buffer is not touched. -/
def add_child_block (E : AugeasEngine) (self : BlockSelfState) (name : Str)
    (parameters : Option (List Str)) (position : Option Nat) :
    BlockData × BlockSelfState × List AugOp :=
  let r := aug_resolve_child_position E self.augeaspath name position
  let insertpath := r.1
  let realpath := r.2.1
  let before := r.2.2
  let new_block : BlockData :=
    { dir :=
        { name := name
          enabled := true
          filepath := E.getFilePath realpath
          dirty := false
          ancestor := .passAnc
          metadata := { parserId := E.parserId, augeaspath := realpath } }
      children := [] }
  (new_block, self,
    AugOp.matchOp (self.augeaspath ++ "/*".data) ::
      AugOp.insertOp insertpath name before ::
      directive_node_init_ops E realpath parameters)

/-!
### Concrete demonstration values used by witnesses and counterexamples
-/

/-- A concrete root search path. -/
def demoRoot : Str := "/c.conf".data

/-- A concrete engine path of a block labelled `Block`. -/
def demoB1 : Str := "/files/c.conf/Block[1]".data

/-- A concrete engine path of a block labelled `bLoCk`. -/
def demoB2 : Str := "/files/c.conf/bLoCk[1]".data

/-- A concrete engine path of a block labelled `Other`. -/
def demoOther : Str := "/files/c.conf/Other[1]".data

/-- A concrete engine used to instantiate the theorems: one root whose
descendants are two case variants of `Block` plus an unrelated block. -/
def Edemo : AugeasEngine :=
  { matchChildren := fun _ => ["/files/c.conf/a[1]".data]
    matchArgs := fun _ => []
    descendants := fun r => if r == demoRoot then [demoB1, demoB2, demoOther] else []
    getArg := fun p => p
    getFilePath := fun p => p
    keepPath := fun _ => true
    parserId := 0 }

/-- A concrete comment node. -/
def demoComment : CommentData :=
  { comment := "x".data
    filepath := "/c.conf".data
    dirty := false
    ancestor := .passAnc
    metadata := { parserId := 0, augeaspath := "/files/c.conf/#comment[1]".data } }

/-- A concrete directive node. -/
def demoDirective : DirectiveData :=
  { name := "ServerName".data
    enabled := true
    filepath := "/c.conf".data
    dirty := false
    ancestor := .passAnc
    metadata := { parserId := 0, augeaspath := "/files/c.conf/directive[1]".data } }

/-- A concrete block node whose surface attributes coincide with
`demoDirective`'s. -/
def demoBlock : BlockData := { dir := demoDirective, children := [] }

/-!
## Helper lemmas
-/

theorem foldl_remove_drop :
    ∀ (l acc : List Str),
      List.foldl (fun a _ => aug_remove_first_arg a) acc l = acc.drop l.length := by
  intro l
  induction l with
  | nil => intro acc; simp
  | cons x xs ih =>
    intro acc
    simp only [List.foldl_cons, List.length_cons]
    rw [ih, aug_remove_first_arg, ← List.drop_one, List.drop_drop, Nat.add_comm]

theorem set_parameters_clear_eq_nil (args : List Str) :
    set_parameters_clear args = [] := by
  unfold set_parameters_clear
  rw [foldl_remove_drop, List.drop_length]

theorem set_parameters_write_append :
    ∀ (P args : List Str), set_parameters_write args (args.length + 1) P = args ++ P := by
  intro P
  induction P with
  | nil => intro args; simp [set_parameters_write]
  | cons p ps ih =>
    intro args
    simp only [set_parameters_write]
    have h1 : aug_set_arg args (args.length + 1) p = args ++ [p] := by
      simp [aug_set_arg]
    rw [h1]
    have h2 : args.length + 1 + 1 = (args ++ [p]).length + 1 := by simp
    rw [h2, ih (args ++ [p]), List.append_assoc]
    rfl

theorem contains_append (l1 l2 : List Str) (x : Str) :
    (l1 ++ l2).contains x = (l1.contains x || l2.contains x) := by
  induction l1 with
  | nil => simp
  | cons a as ih =>
    simp only [List.cons_append, List.contains_cons, ih, Bool.or_assoc]

theorem not_mem_of_contains_eq_false {l : List Str} {x : Str}
    (h : l.contains x = false) : x ∉ l := by
  intro hmem
  have := List.elem_iff.mpr hmem
  rw [List.contains] at h
  rw [h] at this
  exact Bool.false_ne_true this

theorem insertAll_nodup :
    ∀ (l acc : List Str), acc.Nodup → (insertAll acc l).Nodup := by
  intro l
  induction l with
  | nil => intro acc h; exact h
  | cons p ps ih =>
    intro acc h
    simp only [insertAll]
    cases hc : acc.contains p with
    | true => simpa [hc] using ih acc h
    | false =>
      have hnm : p ∉ acc := not_mem_of_contains_eq_false hc
      simpa [hc] using ih (acc ++ [p]) (by simp [List.nodup_append, h, hnm])

theorem find_directives_loop_paths (E : AugeasEngine) :
    ∀ (hits already : List Str) (acc : List DirectiveData),
      (∀ x : Str, already.contains x = (acc.map dirPath).contains x) →
      (find_directives_loop E already acc hits).map dirPath =
        insertAll (acc.map dirPath) (hits.map stripArg) := by
  intro hits
  induction hits with
  | nil => intro already acc h; rfl
  | cons d ds ih =>
    intro already acc h
    have hmap : dirPath (create_directivenode E (stripArg d)) = stripArg d := rfl
    rw [show find_directives_loop E already acc (d :: ds) =
        (if already.contains (stripArg d) then find_directives_loop E already acc ds
         else find_directives_loop E (stripArg d :: already)
           (acc ++ [create_directivenode E (stripArg d)]) ds) from rfl]
    rw [show (d :: ds).map stripArg = stripArg d :: ds.map stripArg from rfl]
    rw [show insertAll (acc.map dirPath) (stripArg d :: ds.map stripArg) =
        insertAll (if (acc.map dirPath).contains (stripArg d) then acc.map dirPath
          else acc.map dirPath ++ [stripArg d]) (ds.map stripArg) from rfl]
    rw [← h (stripArg d)]
    cases hc : already.contains (stripArg d) with
    | true =>
      rw [if_pos rfl, if_pos rfl]
      exact ih already acc h
    | false =>
      rw [if_neg Bool.false_ne_true, if_neg Bool.false_ne_true]
      have hinv : ∀ x : Str,
          (stripArg d :: already).contains x =
            (((acc ++ [create_directivenode E (stripArg d)]).map dirPath).contains x) := by
        intro x
        rw [List.map_append, contains_append, List.map_cons, List.map_nil, hmap]
        simp only [List.contains_cons]
        rw [h x]
        cases hx : x == stripArg d <;>
          cases hy : (acc.map dirPath).contains x <;> rfl
      rw [ih (stripArg d :: already) (acc ++ [create_directivenode E (stripArg d)]) hinv]
      rw [List.map_append, List.map_cons, List.map_nil, hmap]

/-!
## Claim theorems
-/

/-- Claim C1: for every parameter list `P` (any length, including 0, 1 and
more) and every prior engine state of the node's `arg` children (empty,
shorter, same length, or longer than `P`), `set_parameters P` followed by
reading the derived `parameters` property yields exactly `P`: the
clear-then-write algorithm leaves no stale positional remnants of the
previous list. -/
theorem c1_set_parameters_roundtrip (args parameters : List Str) :
    parameters_read (set_parameters args parameters) = parameters := by
  unfold parameters_read set_parameters
  rw [set_parameters_clear_eq_nil]
  simpa using set_parameters_write_append parameters []

/-- Claim C4: `find_directives` deduplicates the directive-finder hits by
stripping the `/arg...` suffix: (a) the paths of the constructed nodes are
exactly the first-occurrence deduplication of the stripped hits, (b) no
path is ever emitted more than once, and (c) on the spec-modelled finder
output for a single directive with `K ∈ \x7b0, 2, 5\x7d` parameters the result is
one node for `K ∈ \x7b2, 5\x7d` (never `K` copies) and none for `K = 0` (a
parameterless directive contributes no finder hit). -/
theorem c4_find_directives_dedup (E : AugeasEngine) (hits : List Str) :
    ((find_directives E hits).map dirPath = insertAll [] (hits.map stripArg)) ∧
    ((find_directives E hits).map dirPath).Nodup ∧
    ((find_directives E (find_dir_hits "/f/c/directive[1]".data 0)).map dirPath = [] ∧
     (find_directives E (find_dir_hits "/f/c/directive[1]".data 2)).map dirPath =
       ["/f/c/directive[1]".data] ∧
     (find_directives E (find_dir_hits "/f/c/directive[1]".data 5)).map dirPath =
       ["/f/c/directive[1]".data]) := by
  have hmain : (find_directives E hits).map dirPath = insertAll [] (hits.map stripArg) :=
    find_directives_loop_paths E hits [] [] (fun _ => rfl)
  refine ⟨hmain, ?_, rfl, rfl, rfl⟩
  rw [hmain]
  exact insertAll_nodup (hits.map stripArg) [] List.nodup_nil

theorem splitOnChar_headD_pre (sep : Char) (s : Str) :
    (splitOnChar sep s).headD [] <+: s := by
  induction s with
  | nil => simp [splitOnChar]
  | cons c cs ih =>
    simp only [splitOnChar]
    cases hc : c == sep with
    | true => simp
    | false =>
      simp only [Bool.false_eq_true, if_false, List.headD_cons]
      obtain ⟨t, ht⟩ := ih
      exact ⟨t, by rw [List.cons_append, ht]⟩

theorem startsWithSub_of_pre :
    ∀ (t s : Str), t <+: s → startsWithSub s t = true := by
  intro t
  induction t with
  | nil => intro s _; cases s <;> rfl
  | cons c cs ih =>
    intro s h
    obtain ⟨r, hr⟩ := h
    rw [← hr]
    simp only [List.cons_append, startsWithSub, beq_self_eq_true, Bool.true_and]
    exact ih (cs ++ r) ⟨r, rfl⟩

theorem containsSub_of_pre (s t : Str) (h : t <+: s) : containsSub s t = true := by
  cases s with
  | nil =>
    have : t = [] := List.prefix_nil.mp h
    simp [containsSub, this]
  | cons c cs =>
    simp [containsSub, startsWithSub_of_pre _ _ h]

theorem lowerStr_pre {t s : Str} (h : t <+: s) : lowerStr t <+: lowerStr s := by
  obtain ⟨r, hr⟩ := h
  exact ⟨lowerStr r, by rw [← hr]; simp [lowerStr]⟩

theorem substring_filter_pass (name p : Str) (hw : dropTrailingSlash p = p)
    (hm : case_i_match name (aug_get_name p) = true) :
    containsSub (lowerStr (basenameOf p)) (lowerStr name) = true := by
  have hname : aug_get_name p = (splitOnChar '[' (basenameOf p)).headD [] := by
    unfold aug_get_name basenameOf
    rw [hw]
  have hpre : aug_get_name p <+: basenameOf p := by
    rw [hname]; exact splitOnChar_headD_pre _ _
  have hlow : lowerStr (aug_get_name p) = lowerStr name := by
    unfold case_i_match at hm
    exact eq_of_beq hm
  apply containsSub_of_pre
  rw [← hlow]
  exact lowerStr_pre hpre

theorem double_filter_collapse (name : Str) (l : List Str)
    (hw : ∀ p ∈ l, dropTrailingSlash p = p) :
    ((l.filter fun p => case_i_match name (aug_get_name p)).filter
      fun p => containsSub (lowerStr (basenameOf p)) (lowerStr name)) =
    l.filter fun p => lowerStr (aug_get_name p) == lowerStr name := by
  rw [List.filter_filter]
  apply List.filter_congr
  intro p hp
  cases hm : case_i_match name (aug_get_name p) with
  | true =>
    rw [substring_filter_pass name p (hw p hp) hm, Bool.true_and]
    unfold case_i_match at hm
    exact hm.symm
  | false =>
    rw [Bool.and_false]
    unfold case_i_match at hm
    exact hm.symm

theorem insertAll_append :
    ∀ (l1 : List Str) (acc l2 : List Str),
      insertAll acc (l1 ++ l2) = insertAll (insertAll acc l1) l2 := by
  intro l1
  induction l1 with
  | nil => intro acc l2; rfl
  | cons p ps ih =>
    intro acc l2
    simp only [List.cons_append, insertAll]
    exact ih _ _

theorem foldl_insertAll_flatMap (g : Str → List Str) :
    ∀ (roots acc : List Str),
      roots.foldl (fun a r => insertAll a (g r)) acc = insertAll acc (roots.flatMap g) := by
  intro roots
  induction roots with
  | nil => intro acc; rfl
  | cons r rs ih =>
    intro acc
    simp only [List.foldl_cons, List.flatMap_cons]
    rw [insertAll_append]
    exact ih _

theorem flatMap_congr_mem (l : List Str) (f g : Str → List Str)
    (h : ∀ a ∈ l, f a = g a) : l.flatMap f = l.flatMap g := by
  induction l with
  | nil => rfl
  | cons a as ih =>
    simp only [List.flatMap_cons]
    rw [h a (List.mem_cons_self a as), ih fun x hx => h x (List.mem_cons_of_mem a hx)]

theorem aug_find_blocks_eq_spec (E : AugeasEngine) (pp : List Str) (name : Str)
    (hw : ∀ r ∈ pp, ∀ p ∈ E.descendants r, dropTrailingSlash p = p) :
    aug_find_blocks E pp name = find_blocks_label_matches E pp name := by
  unfold aug_find_blocks find_blocks_label_matches
  rw [foldl_insertAll_flatMap (fun r =>
    ((E.descendants r).filter fun p => case_i_match name (aug_get_name p)).filter
      fun p => containsSub (lowerStr (basenameOf p)) (lowerStr name))]
  congr 1
  exact flatMap_congr_mem pp _ _ fun r hr => double_filter_collapse name _ (hw r hr)

theorem find_blocks_map_path (E : AugeasEngine) (pp : List Str) (name : Str)
    (setIter : List Str → List Str) :
    (find_blocks E pp name false setIter).map blockPath =
      setIter (aug_find_blocks E pp name) := by
  unfold find_blocks
  simp only [Bool.false_eq_true, if_false]
  rw [List.map_map]
  have : blockPath ∘ create_blocknode E = id := funext fun p => rfl
  rw [this, List.map_id]

/-- Claim C2: for every engine tree (with well-formed, non-slash-terminated
match results) and every name, `find_blocks` returns exactly the block nodes
whose trailing path segment with its `[n]` index stripped case-folds to
`name` — all case variants are returned, no node whose label merely
contains `name` as a proper substring is, and every resulting node's `name`
preserves its own original label casing.  `setIter` is any legal iteration
order of the result set (a permutation of its elements). -/
theorem c2_find_blocks_exact_label_matches (E : AugeasEngine) (pp : List Str)
    (name : Str) (setIter : List Str → List Str)
    (hIter : (setIter (aug_find_blocks E pp name)).Perm (aug_find_blocks E pp name))
    (hw : ∀ r ∈ pp, ∀ p ∈ E.descendants r, dropTrailingSlash p = p) :
    ((find_blocks E pp name false setIter).map blockPath).Perm
      (find_blocks_label_matches E pp name) ∧
    (∀ b ∈ find_blocks E pp name false setIter,
      b.dir.name = aug_get_name (blockPath b)) := by
  constructor
  · rw [find_blocks_map_path, ← aug_find_blocks_eq_spec E pp name hw]
    exact hIter
  · intro b hb
    unfold find_blocks at hb
    simp only [Bool.false_eq_true, if_false, List.mem_map] at hb
    obtain ⟨p, _, rfl⟩ := hb
    rfl

/-- Claim C2 witness: the theorem instantiated at the concrete engine
`Edemo`, one root, name `block`, identity iteration order. -/
theorem c2_find_blocks_witness :
    ((find_blocks Edemo [demoRoot] "block".data false id).map blockPath).Perm
      (find_blocks_label_matches Edemo [demoRoot] "block".data) :=
  (c2_find_blocks_exact_label_matches Edemo [demoRoot] "block".data id
    (List.Perm.refl _) (by decide)).1

/-- Claim C3 (amended): `find_blocks` returns one node per path of the
per-root document-order match set, but only up to permutation — the result
list, projected to paths, is a permutation of the set built by
`_aug_find_blocks` (per-root document order, first-occurrence
deduplication), for every legal set-iteration order. -/
theorem c3_find_blocks_perm_of_doc_order (E : AugeasEngine) (pp : List Str)
    (name : Str) (setIter : List Str → List Str)
    (hIter : (setIter (aug_find_blocks E pp name)).Perm (aug_find_blocks E pp name)) :
    ((find_blocks E pp name false setIter).map blockPath).Perm
      (aug_find_blocks E pp name) := by
  rw [find_blocks_map_path]
  exact hIter

/-- Claim C3 witness: the amended theorem instantiated at `Edemo` with the
reversed iteration order (a legal permutation). -/
theorem c3_find_blocks_witness :
    ((find_blocks Edemo [demoRoot] "Block".data false List.reverse).map blockPath).Perm
      (aug_find_blocks Edemo [demoRoot] "Block".data) :=
  c3_find_blocks_perm_of_doc_order Edemo [demoRoot] "Block".data List.reverse
    (List.reverse_perm _)

/-- Claim C3 counterexample: reversal is a legal iteration order of the
result set (first conjunct), yet under it `find_blocks` does not return the
matched nodes in the engine's per-root document order (second conjunct):
the output path list differs from the document-order match list, because
`_aug_find_blocks` accumulates its results into an unordered set. -/
theorem c3_counterexample_order_not_preserved :
    (List.reverse (aug_find_blocks Edemo [demoRoot] "Block".data)).Perm
      (aug_find_blocks Edemo [demoRoot] "Block".data) ∧
    (((find_blocks Edemo [demoRoot] "Block".data false List.reverse).map blockPath) ==
      ([demoRoot].flatMap fun r =>
        (Edemo.descendants r).filter fun p =>
          case_i_match "Block".data (aug_get_name p))) = false :=
  ⟨List.reverse_perm _, by decide⟩

theorem countMatchingBefore_some (name : Str) (p : Nat) :
    ∀ (l : List Str) (i : Nat),
      countMatchingBefore name (some p) i l =
        List.countP (fun c => aug_get_name c == name) (l.take (p - i)) := by
  intro l
  induction l with
  | nil => intro i; simp [countMatchingBefore]
  | cons c cs ih =>
    intro i
    simp only [countMatchingBefore]
    by_cases h : p ≤ i
    · rw [if_pos h, Nat.sub_eq_zero_of_le h]
      simp
    · rw [if_neg h]
      have h2 : p - i = (p - (i + 1)) + 1 := by omega
      rw [h2, List.take_succ_cons, List.countP_cons, ih (i + 1), Nat.add_comm]

theorem countMatchingBefore_none (name : Str) :
    ∀ (l : List Str) (i : Nat),
      countMatchingBefore name none i l =
        List.countP (fun c => aug_get_name c == name) l := by
  intro l
  induction l with
  | nil => intro i; rfl
  | cons c cs ih =>
    intro i
    simp only [countMatchingBefore, List.countP_cons]
    rw [ih (i + 1), Nat.add_comm]

theorem aug_resolve_child_position_resulting (E : AugeasEngine) (path name : Str)
    (position : Option Nat) :
    (aug_resolve_child_position E path name position).2.1 =
      path ++ "/".data ++ name ++ "[".data ++
        natToStr (1 + countMatchingBefore name position 0 (E.matchChildren path)) ++
        "]".data := by
  unfold aug_resolve_child_position
  by_cases h2 : position = some 0 <;>
    cases h1 : ((E.matchChildren path).isEmpty || position.isNone ||
      decide ((E.matchChildren path).length ≤ position.getD 0)) <;>
    simp [h1, h2] <;> split <;> rfl

/-- Claim C6: the resolver's resulting path is `thisPath/name[counter]`,
where `counter` is 1 plus the number of immediate children strictly before
index `position` (all children when `position` is unset) whose
index-stripped label equals `name` by exact, case-sensitive comparison. -/
theorem c6_new_child_resulting_path (E : AugeasEngine) (path name : Str)
    (position : Option Nat) :
    (aug_resolve_child_position E path name position).2.1 =
      path ++ "/".data ++ name ++ "[".data ++
        natToStr (1 + List.countP (fun c => aug_get_name c == name)
          ((E.matchChildren path).take
            (position.getD (E.matchChildren path).length))) ++ "]".data := by
  rw [aug_resolve_child_position_resulting]
  cases position with
  | none => rw [countMatchingBefore_none, Option.getD_none, List.take_length]
  | some p => rw [countMatchingBefore_some, Nat.sub_zero, Option.getD_some]

/-- Claim C5: the resolver's anchor decision.  With `C` the current child
count: if `C = 0`, or `position` is unset, or `position ≥ C`, it appends
after the last existing child with `before = false`; else if `position = 0`
it anchors at the current first child with `before = true`; else it anchors
at the child at 1-based engine index `position` and inserts after it with
`before = false`. -/
theorem c5_anchor_decision (E : AugeasEngine) (path name : Str)
    (position : Option Nat) :
    ((E.matchChildren path = [] ∨ position = none ∨
        (E.matchChildren path).length ≤ position.getD 0) →
      (aug_resolve_child_position E path name position).1 =
        path ++ "/*[last()]".data ∧
      (aug_resolve_child_position E path name position).2.2 = false) ∧
    (∀ c cs, E.matchChildren path = c :: cs → position = some 0 →
      (aug_resolve_child_position E path name position).1 = c ∧
      (aug_resolve_child_position E path name position).2.2 = true) ∧
    (∀ p : Nat, position = some p → 0 < p → p < (E.matchChildren path).length →
      (aug_resolve_child_position E path name position).1 =
        path ++ "/*[".data ++ natToStr p ++ "]".data ∧
      (aug_resolve_child_position E path name position).2.2 = false) := by
  refine ⟨?_, ?_, ?_⟩
  · intro h
    rcases h with h | h | h
    · constructor <;> simp [aug_resolve_child_position, h]
    · constructor <;> simp [aug_resolve_child_position, h]
    · constructor <;> simp [aug_resolve_child_position, h]
  · intro c cs hc h0
    constructor <;> simp [aug_resolve_child_position, hc, h0]
  · intro p hp h1 h2
    have hne : p ≠ 0 := Nat.pos_iff_ne_zero.mp h1
    have hnl : ¬((E.matchChildren path).length ≤ p) := Nat.not_le.mpr h2
    have hni : E.matchChildren path ≠ [] := by
      intro hnil
      rw [hnil] at h2
      exact absurd h2 (by simp)
    constructor <;> simp [aug_resolve_child_position, hp, hne, hnl, hni]

/-- Claim C5 witness: at the concrete engine `Edemo` (one existing child)
with `position = 0`, the resolver anchors at the current first child and
sets `before = true`. -/
theorem c5_anchor_witness :
    (aug_resolve_child_position Edemo "/files/c.conf".data "b".data (some 0)).1 =
      "/files/c.conf/a[1]".data ∧
    (aug_resolve_child_position Edemo "/files/c.conf".data "b".data (some 0)).2.2 =
      true :=
  (c5_anchor_decision Edemo "/files/c.conf".data "b".data (some 0)).2.1
    "/files/c.conf/a[1]".data [] rfl rfl

/-- Claim C7: `add_child_directive` and `add_child_comment` perform no
engine call at all (their engine-call trace is empty, so the engine tree is
unchanged); each only appends exactly one new node with placeholder
identity (`assertions.PASS` name/text, filepath and engine path) to the
local `children` buffer and returns it — in contrast to `add_child_block`,
whose trace is never empty (it talks to the engine immediately). -/
theorem c7_add_child_directive_comment_buffer_only (E : AugeasEngine)
    (self : BlockSelfState) (name : Str) (parameters : Option (List Str))
    (position : Option Nat) (comment : Str) :
    (add_child_directive E self name parameters position).2.2 = [] ∧
    (add_child_directive E self name parameters position).2.1.children =
      self.children ++
        [ChildNode.childDir (add_child_directive E self name parameters position).1] ∧
    (add_child_directive E self name parameters position).1.name = assertions_PASS ∧
    (add_child_directive E self name parameters position).1.filepath = assertions_PASS ∧
    dirPath (add_child_directive E self name parameters position).1 = assertions_PASS ∧
    (add_child_comment E self comment position).2.2 = [] ∧
    (add_child_comment E self comment position).2.1.children =
      self.children ++
        [ChildNode.childComment (add_child_comment E self comment position).1] ∧
    (add_child_comment E self comment position).1.comment = assertions_PASS ∧
    1 ≤ ((add_child_block E self name parameters position).2.2).length := by
  refine ⟨rfl, rfl, rfl, rfl, rfl, rfl, rfl, rfl, ?_⟩
  simp [add_child_block]

/-- Claim C10: `add_child_block` leaves the calling node (in particular its
local `children` buffer) unchanged, performs the engine insertion at the
resolved anchor, and returns a freshly constructed block node — bound to
the resolved resulting path, with placeholder ancestor and an empty buffer
of its own — without ever appending it to `children`. -/
theorem c10_add_child_block_no_buffer_append (E : AugeasEngine)
    (self : BlockSelfState) (name : Str) (parameters : Option (List Str))
    (position : Option Nat) :
    (add_child_block E self name parameters position).2.1 = self ∧
    (add_child_block E self name parameters position).2.1.children = self.children ∧
    AugOp.insertOp (aug_resolve_child_position E self.augeaspath name position).1
        name (aug_resolve_child_position E self.augeaspath name position).2.2 ∈
      (add_child_block E self name parameters position).2.2 ∧
    blockPath (add_child_block E self name parameters position).1 =
      (aug_resolve_child_position E self.augeaspath name position).2.1 ∧
    (add_child_block E self name parameters position).1.children = [] ∧
    (add_child_block E self name parameters position).1.dir.ancestor =
      AncestorVal.passAnc := by
  refine ⟨rfl, rfl, ?_, rfl, rfl, rfl⟩
  exact List.mem_cons_of_mem _ (List.mem_cons_self _ _)

/-- Claim C8: the equality comparison of every node kind is a total
Boolean-valued function (the embedding returns a `Bool` for every possible
right operand, mirroring that the Python code cannot raise there), and
whenever the right operand's type does not match the node's own class the
comparison evaluates to `False` instead of failing. -/
theorem c8_eq_type_mismatch_is_false (E : AugeasEngine) (c : CommentData)
    (d : DirectiveData) (b : BlockData) (v : PyVal) :
    (isinstance_comment v = false → comment_eq E c v = false) ∧
    (isinstance_directive v = false → directive_eq E d v = false) ∧
    (isinstance_block v = false → block_eq E b v = false) := by
  refine ⟨?_, ?_, ?_⟩ <;>
    (intro h; cases v <;>
      simp_all [isinstance_comment, isinstance_directive, isinstance_block,
        comment_eq, directive_eq, block_eq])

/-- Claim C8 witness: the theorem instantiated at the concrete nodes and a
non-node value. -/
theorem c8_eq_mismatch_witness :
    comment_eq Edemo demoComment (PyVal.otherV 0) = false ∧
    directive_eq Edemo demoDirective (PyVal.otherV 0) = false ∧
    block_eq Edemo demoBlock (PyVal.otherV 0) = false := by
  have h := c8_eq_type_mismatch_is_false Edemo demoComment demoDirective demoBlock
    (PyVal.otherV 0)
  exact ⟨h.1 rfl, h.2.1 rfl, h.2.2 rfl⟩

/-- Claim C9 counterexample: at the claim's own kind of instance — the
directive `demoDirective` and the block `demoBlock` with identical name,
filepath, derived parameters, enabled, dirty, ancestor and metadata — the
`==` operator evaluates to `False` in *both* directions, so `d == b` is
never `True` as the claim states: CPython dispatches `d == b` to the
proper-subclass right operand's reflected `b.__eq__(d)` first, which
returns `False` (the directive is not an instance of the block class) and,
not being `NotImplemented`, is final. -/
theorem c9_operator_eq_counterexample :
    py_eq Edemo (PyVal.directiveV demoDirective) (PyVal.blockV demoBlock) =
      some false ∧
    py_eq Edemo (PyVal.blockV demoBlock) (PyVal.directiveV demoDirective) =
      some false := by
  exact ⟨by decide, by decide⟩

/-- Claim C9 (amended): across the directive/block kinds the `==` operator
is not asymmetric but symmetrically `False`: for every engine and every
directive `d` and block `b` — fields identical or not — both `d == b` and
`b == d` dispatch to the block's `__eq__` (for `d == b` because CPython
tries the proper-subclass right operand's reflected method first, for
`b == d` because the block is the left operand), which rejects any
non-block operand.  The asymmetry created by the subclass `isinstance`
checks exists only at the direct method-call level: `d.__eq__(b)` is
`True` while `b.__eq__(d)` is `False` for the concrete pair with
identical surface attributes. -/
theorem c9_operator_eq_both_false :
    (∀ (E : AugeasEngine) (d : DirectiveData) (b : BlockData),
      py_eq E (PyVal.directiveV d) (PyVal.blockV b) = some false ∧
      py_eq E (PyVal.blockV b) (PyVal.directiveV d) = some false) ∧
    directive_eq Edemo demoDirective (PyVal.blockV demoBlock) = true ∧
    block_eq Edemo demoBlock (PyVal.directiveV demoDirective) = false := by
  refine ⟨fun E d b => ⟨rfl, rfl⟩, by decide, by decide⟩
